import Mathlib

/-!
Shallow embedding of the `workout_gpx_rs` ingestion pipeline
(`src/lib.rs`, `src/sql.rs`).  Rust `f64`/`f32` values are modelled as
exact rationals (`ℚ`); machine rounding plays no role in the verified
statements.  External libraries (`chrono`, `regex`, `rusqlite`) are
modelled by their documented semantics, as noted at each definition.
-/

namespace WorkoutGpx

/-- Embeds `static EPSILON: f64 = 0.0000001` from `src/lib.rs`. -/
def EPSILON : ℚ := 1 / 10000000

/-- Embeds `enum Activity { Running, Cycling, Unknown }`. -/
inductive Activity where
  | Running
  | Cycling
  | Unknown
deriving DecidableEq, Repr

/-- Embeds `Display for Activity`, which prints the variant name
(the derived `Debug` representation). -/
def Activity.toStr : Activity → String
  | .Running => "Running"
  | .Cycling => "Cycling"
  | .Unknown => "Unknown"

/-- Embeds `struct GeoPoint { lat: f64, lng: f64 }`; `Default` is `(0,0)`. -/
structure GeoPoint where
  lat : ℚ
  lng : ℚ
deriving DecidableEq, Repr

instance : Inhabited GeoPoint := ⟨⟨0, 0⟩⟩

/-- Embeds `struct Record` from `src/lib.rs` (one sample point).  `f32`
sensor fields are modelled as `ℚ`, `i32`/`i64` fields as `Int`. -/
structure Record where
  activity : Option Activity := none
  ds : Option Int := none
  timestamp : Option Int := none
  geopoint : Option GeoPoint := none
  elevation : Option ℚ := none
  heartrate : Option Int := none
  temperature : Option Int := none
  speed : Option ℚ := none
  course : Option ℚ := none
  hAcc : Option ℚ := none
  vAcc : Option ℚ := none
deriving DecidableEq, Repr

instance : Inhabited Record := ⟨{}⟩

/-- Embeds `Record::_null_island`: `sqrt(lat² + lng²) <= EPSILON` on the
stored GeoPoint, `Ok(false)` when the GeoPoint is absent.  Over exact
nonnegative reals `sqrt(x) ≤ ε` holds iff `x ≤ ε²`, so the square root is
eliminated in favour of the equivalent squared comparison, which keeps the
definition executable.  The `Result` return type of the source is kept as
`Except`; no path of the source returns `Err`. -/
def Record.nullIsland (r : Record) : Except String Bool :=
  match r.geopoint with
  | some g => .ok (decide (g.lat * g.lat + g.lng * g.lng ≤ EPSILON * EPSILON))
  | none => .ok false

/-- Embeds `Record::validate`: not null-island, and at least one of the
optional sensor fields or the record timestamp is populated. -/
def Record.validate (r : Record) : Except String Bool := do
  let ni ← r.nullIsland
  .ok (!ni &&
    !(r.elevation.isNone && r.timestamp.isNone && r.heartrate.isNone &&
      r.temperature.isNone && r.speed.isNone && r.course.isNone &&
      r.hAcc.isNone && r.vAcc.isNone))

/-- The completeness side of validation: at least one optional sensor
field, or the record's own timestamp, is populated. -/
def Record.hasSensorData (r : Record) : Prop :=
  r.elevation ≠ none ∨ r.heartrate ≠ none ∨ r.temperature ≠ none ∨
    r.speed ≠ none ∨ r.course ≠ none ∨ r.hAcc ≠ none ∨ r.vAcc ≠ none ∨
    r.timestamp ≠ none

instance (r : Record) : Decidable r.hasSensorData := by
  unfold Record.hasSensorData; infer_instance

/-- Embeds `struct Workout { activity, timestamp, records }`. -/
structure Workout where
  activity : Activity
  timestamp : Int
  records : List Record
deriving Repr

/-- Claim C4: for a Record whose GeoPoint is present, `validate` returns
true iff the point's squared Euclidean distance from the origin exceeds
`EPSILON²` (equivalently, the distance exceeds 1e-7) and some sensor field
or the record timestamp is populated; in particular a near-origin Record
is invalid regardless of its other fields. -/
theorem validate_characterisation (r : Record) (g : GeoPoint)
    (h : r.geopoint = some g) :
    r.validate = .ok true ↔
      (EPSILON * EPSILON < g.lat * g.lat + g.lng * g.lng ∧ r.hasSensorData) := by
  have hval : r.validate =
      .ok (!(decide (g.lat * g.lat + g.lng * g.lng ≤ EPSILON * EPSILON)) &&
        !(r.elevation.isNone && r.timestamp.isNone && r.heartrate.isNone &&
          r.temperature.isNone && r.speed.isNone && r.course.isNone &&
          r.hAcc.isNone && r.vAcc.isNone)) := by
    simp [Record.validate, Record.nullIsland, h, bind, Except.bind]
  rw [hval]
  simp only [Except.ok.injEq, Bool.and_eq_true, Bool.not_eq_true',
    decide_eq_false_iff_not, not_le]
  refine and_congr_right fun _ => ?_
  rw [Bool.eq_false_iff, Ne, Bool.and_eq_true, Bool.and_eq_true,
    Bool.and_eq_true, Bool.and_eq_true, Bool.and_eq_true, Bool.and_eq_true,
    Bool.and_eq_true]
  simp only [Option.isNone_iff_eq_none, Record.hasSensorData, Ne]
  tauto

/-- Witness for C4: a Record at (3, 4) with an elevation reading validates;
its coordinates are far from the origin and a sensor field is set. -/
theorem validate_characterisation_witness :
    Record.validate { geopoint := some ⟨3, 4⟩, elevation := some 12 } = .ok true :=
  (validate_characterisation { geopoint := some ⟨3, 4⟩, elevation := some 12 }
    ⟨3, 4⟩ rfl).mpr ⟨by norm_num [EPSILON], by simp [Record.hasSensorData]⟩

/-- ASCII digit character for a value below ten. -/
def digitChar (d : Nat) : Char := Char.ofNat (48 + d)

/-- Decimal digits of a natural number, most significant first
(fuel-indexed accumulator form; `fuel` bounds the digit count so the
recursion is structural and reduces definitionally). -/
def natCharsGo (fuel : Nat) (n : Nat) (acc : List Char) : List Char :=
  match fuel with
  | 0 => acc
  | fuel + 1 =>
    if n < 10 then digitChar (n % 10) :: acc
    else natCharsGo fuel (n / 10) (digitChar (n % 10) :: acc)

/-- Decimal digits of a natural number, most significant first. -/
def natChars (n : Nat) : List Char := natCharsGo (n + 1) n []

/-- Decimal rendering of an integer, with a leading minus sign when
negative. -/
def intChars : Int → List Char
  | .ofNat n => natChars n
  | .negSucc n => '-' :: natChars (n + 1)

/-- Models Rust's `Display` formatting of an `f64` coordinate value as used
by `Workout::geopoly` (`format!` with the plain display specifier).  Rust
prints the shortest decimal that round-trips; on integer-valued
coordinates — the only values the concrete verified statements exercise —
that is the plain integer with no decimal point, modelled here exactly.
Non-integral rationals are rendered as an exact `num/den` fraction; like
Rust's rendering of such values, the output never contains a `.` followed
by anything resembling the fixed placeholder text. -/
def fmtF64 (q : ℚ) : String :=
  if q.den = 1 then String.mk (intChars q.num)
  else String.mk (intChars q.num ++ '/' :: natChars q.den)

/-- Embeds the per-record closure inside `Workout::geopoly`: a present
GeoPoint formats as `[lat,lng]`, an absent one as the placeholder
`[0.0,0.0]`. -/
def recordCoord (r : Record) : String :=
  match r.geopoint with
  | some g => "[" ++ fmtF64 g.lat ++ "," ++ fmtF64 g.lng ++ "]"
  | none => "[0.0,0.0]"

/-- Embeds `Workout::geopoly`: `filter_map` over the records keeps an entry
whenever `validate` returned `Ok` (`.ok().map(|_| ...)` discards the boolean
verdict), then joins the entries with commas inside the single-quoted
bracketed literal. -/
def Workout.geopoly (w : Workout) : Except String String :=
  let coords : List String :=
    w.records.filterMap fun r => r.validate.toOption.map fun _ => recordCoord r
  .ok ("\x27[ " ++ String.intercalate "," coords ++ "]\x27")

/-- The validator never returns an error: both of its paths end in `Ok`. -/
theorem validate_isOk (r : Record) : ∃ b, r.validate = .ok b := by
  cases hg : r.geopoint <;>
    simp [Record.validate, Record.nullIsland, hg, bind, Except.bind]

theorem digitChar_isDigit {d : Nat} (h : d < 10) :
    (digitChar d).isDigit = true := by
  interval_cases d <;> decide

theorem natCharsGo_digits (fuel : Nat) :
    ∀ (n : Nat) (acc : List Char), (∀ c ∈ acc, c.isDigit = true) →
      ∀ c ∈ natCharsGo fuel n acc, c.isDigit = true := by
  induction fuel with
  | zero => intro n acc hacc c hc; exact hacc c hc
  | succ fuel ih =>
    intro n acc hacc c hc
    rw [natCharsGo] at hc
    have hcons : ∀ x ∈ digitChar (n % 10) :: acc, x.isDigit = true := by
      intro x hx
      rcases List.mem_cons.mp hx with hx | hx
      · exact hx ▸ digitChar_isDigit (Nat.mod_lt _ (by omega))
      · exact hacc x hx
    split at hc
    · exact hcons c hc
    · exact ih (n / 10) _ hcons c hc

theorem fmtF64_chars (q : ℚ) :
    ∀ c ∈ (fmtF64 q).data, c.isDigit = true ∨ c = '-' ∨ c = '/' := by
  have hnat : ∀ n : Nat, ∀ c ∈ natChars n, c.isDigit = true := fun n =>
    natCharsGo_digits (n + 1) n [] (by simp)
  have hint : ∀ i : Int, ∀ c ∈ intChars i, c.isDigit = true ∨ c = '-' := by
    intro i c hc
    cases i with
    | ofNat n => exact Or.inl (hnat n c hc)
    | negSucc n =>
      rcases List.mem_cons.mp hc with hc | hc
      · exact Or.inr hc
      · exact Or.inl (hnat _ c hc)
  intro c hc
  unfold fmtF64 at hc
  split at hc
  · rcases hint q.num c hc with h | h
    · exact Or.inl h
    · exact Or.inr (Or.inl h)
  · replace hc : c ∈ intChars q.num ++ '/' :: natChars q.den := hc
    rcases List.mem_append.mp hc with hc | hc
    · rcases hint q.num c hc with h | h
      · exact Or.inl h
      · exact Or.inr (Or.inl h)
    · rcases List.mem_cons.mp hc with hc | hc
      · exact Or.inr (Or.inr hc)
      · exact Or.inl (hnat _ c hc)

/-- Claim C6: `geopoly` emits one entry per record in original order — the
validator's verdict is discarded, only an `Ok` result is required, and the
validator always returns `Ok` — and a record's entry is the placeholder
`[0.0,0.0]` exactly when its GeoPoint is absent, never as a substitute for
a present (possibly invalid) GeoPoint. -/
theorem geopoly_entrywise (w : Workout) :
    w.geopoly =
      .ok ("\x27[ " ++ String.intercalate "," (w.records.map recordCoord) ++ "]\x27")
    ∧ ∀ r : Record, recordCoord r = "[0.0,0.0]" ↔ r.geopoint = none := by
  constructor
  · unfold Workout.geopoly
    have : ∀ rs : List Record,
        (rs.filterMap fun r => r.validate.toOption.map fun _ => recordCoord r) =
          rs.map recordCoord := by
      intro rs
      induction rs with
      | nil => rfl
      | cons r rs ih =>
        obtain ⟨b, hb⟩ := validate_isOk r
        have hr : (fun r : Record => r.validate.toOption.map fun _ => recordCoord r) r
            = some (recordCoord r) := by
          simp [hb, Except.toOption]
        simp only [List.filterMap_cons, hr, List.map_cons]
        exact congrArg _ ih
    rw [this]
  · intro r
    constructor
    · intro heq
      cases hg : r.geopoint with
      | none => rfl
      | some g =>
        exfalso
        rw [recordCoord, hg] at heq
        have hdata := congrArg String.data heq
        simp only [String.data_append] at hdata
        have hdot : '.' ∈ ("[" : String).data ++ (fmtF64 g.lat).data ++
            ("," : String).data ++ (fmtF64 g.lng).data ++ ("]" : String).data := by
          rw [hdata]; decide
        simp only [List.mem_append] at hdot
        rcases hdot with ((((h | h) | h) | h) | h)
        · revert h; decide
        · rcases fmtF64_chars g.lat '.' h with h | h | h <;> revert h <;> decide
        · revert h; decide
        · rcases fmtF64_chars g.lng '.' h with h | h | h <;> revert h <;> decide
        · revert h; decide
    · intro hg
      rw [recordCoord, hg]

/-- Workout with no records, for the concrete encoding check. -/
def emptyWorkout : Workout := ⟨.Running, 0, []⟩

/-- Workout whose two records carry GeoPoints (1,2) and (3,4). -/
def pairWorkout : Workout :=
  ⟨.Running, 0, [{ geopoint := some ⟨1, 2⟩ }, { geopoint := some ⟨3, 4⟩ }]⟩

/-- Claim C5: zero records encode to the single-quoted empty-list literal,
and records at (1,2), (3,4) encode to a literal whose bracketed list body
is exactly `[1,2],[3,4]`, in record order. -/
theorem geopoly_concrete :
    emptyWorkout.geopoly = .ok "\x27[ ]\x27" ∧
    pairWorkout.geopoly = .ok "\x27[ [1,2],[3,4]]\x27" :=
  ⟨rfl, rfl⟩

/-- Proleptic Gregorian leap-year rule (as used by `chrono`). -/
def isLeap (y : Nat) : Bool :=
  decide ((y % 4 = 0 ∧ y % 100 ≠ 0) ∨ y % 400 = 0)

/-- Length of month `m` (1-based) of year `y` in the proleptic Gregorian
calendar; `0` for out-of-range month numbers. -/
def daysInMonth (y m : Nat) : Nat :=
  match m with
  | 1 => 31
  | 2 => if isLeap y then 29 else 28
  | 3 => 31
  | 4 => 30
  | 5 => 31
  | 6 => 30
  | 7 => 31
  | 8 => 31
  | 9 => 30
  | 10 => 31
  | 11 => 30
  | 12 => 31
  | _ => 0

/-- Days in the months strictly before month `m` of year `y`. -/
def specDaysBeforeMonth (y : Nat) : Nat → Nat
  | 0 => 0
  | m + 1 => specDaysBeforeMonth y m + if 1 ≤ m then daysInMonth y m else 0

/-- Days in the calendar years strictly before year `y` (counted from year
0), written as a transparent per-year recursion.  This is the
specification-level day count that the closed-form arithmetic of the
`chrono` model is proved against. -/
def specDaysBeforeYear : Nat → Nat
  | 0 => 0
  | y + 1 => specDaysBeforeYear y + if isLeap y then 366 else 365

/-- Specification-level epoch seconds of a proleptic-Gregorian date-time
interpreted as UTC with no offset: whole days before the date (via the
per-year recursion), then seconds within the day.  1970-01-01 is day
719528 of the year-0 count. -/
def specEpochUTC (y m d h mi s : Nat) : Int :=
  ((specDaysBeforeYear y : Int) + (specDaysBeforeMonth y m : Int) + (d : Int) - 1 - 719528)
      * 86400
    + (h : Int) * 3600 + (mi : Int) * 60 + (s : Int)

/-- Models the day arithmetic of `chrono`'s conversion from a civil date to
a day number: a closed form counting leap years in `[0, y)` by the
multiples of 4, 100 and 400 below `y`.  Divisions are floor divisions on
naturals. -/
def epochOfDT (y m d h mi s : Nat) : Int :=
  (365 * (y : Int) + ((y + 3) / 4 : Nat) - ((y + 99) / 100 : Nat) + ((y + 399) / 400 : Nat)
      + (specDaysBeforeMonth y m : Int) + (d : Int) - 1 - 719528) * 86400
    + (h : Int) * 3600 + (mi : Int) * 60 + (s : Int)

/-- The per-year recursive day count agrees with the closed-form
multiples-of-4/100/400 leap count used by the `chrono` model. -/
theorem specDaysBeforeYear_closed (y : Nat) :
    (specDaysBeforeYear y : Int) =
      365 * (y : Int) + ((y + 3) / 4 : Nat) - ((y + 99) / 100 : Nat)
        + ((y + 399) / 400 : Nat) := by
  induction y with
  | zero => rfl
  | succ y ih =>
    rw [specDaysBeforeYear]
    split <;> rename_i hL <;>
      simp only [isLeap, decide_eq_true_eq] at hL <;> push_cast [ih] <;> omega

/-- The two epoch computations agree on every field combination. -/
theorem epochOfDT_eq_spec (y m d h mi s : Nat) :
    epochOfDT y m d h mi s = specEpochUTC y m d h mi s := by
  rw [epochOfDT, specEpochUTC, specDaysBeforeYear_closed]

/-- Checks that the pattern `[0-9]{4}-[0-9]{2}-[0-9]{2}-[0-9]{6}`
(`REGEX_CHARS` in `src/lib.rs`) matches a prefix of the character list. -/
def shapeOK (cs : List Char) : Bool :=
  match cs with
  | c0 :: c1 :: c2 :: c3 :: c4 :: c5 :: c6 :: c7 :: c8 :: c9 :: c10 :: c11 ::
      c12 :: c13 :: c14 :: c15 :: c16 :: _ =>
    c0.isDigit && c1.isDigit && c2.isDigit && c3.isDigit && c4 == '-' &&
    c5.isDigit && c6.isDigit && c7 == '-' && c8.isDigit && c9.isDigit &&
    c10 == '-' && c11.isDigit && c12.isDigit && c13.isDigit && c14.isDigit &&
    c15.isDigit && c16.isDigit
  | _ => false

/-- Models `Regex::find` for the fixed-width `REGEX_CHARS` pattern: the
leftmost position whose suffix matches the 17-character shape, returning
the matched text. -/
def findTok : List Char → Option (List Char)
  | [] => none
  | c :: rest =>
    if shapeOK (c :: rest) then some ((c :: rest).take 17) else findTok rest

/-- Numeric value of an ASCII digit character. -/
def digitVal (c : Char) : Nat := c.toNat - 48

/-- Value of a list of ASCII digit characters read in base 10. -/
def tokNat (cs : List Char) : Nat := cs.foldl (fun a c => 10 * a + digitVal c) 0

/-- Year field of a matched token. -/
def tokY (t : List Char) : Nat := tokNat (t.take 4)

/-- Month field of a matched token. -/
def tokM (t : List Char) : Nat := tokNat ((t.drop 5).take 2)

/-- Day field of a matched token. -/
def tokD (t : List Char) : Nat := tokNat ((t.drop 8).take 2)

/-- Hour field of a matched token. -/
def tokH (t : List Char) : Nat := tokNat ((t.drop 11).take 2)

/-- Minute field of a matched token. -/
def tokMin (t : List Char) : Nat := tokNat ((t.drop 13).take 2)

/-- Second field of a matched token. -/
def tokS (t : List Char) : Nat := tokNat ((t.drop 15).take 2)

/-- Models `chrono`'s field validation for
`NaiveDateTime::parse_from_str(d, "%Y-%m-%d-%H%M%S")` on a token that
already matches the regex shape: month 1–12, day within the month, hour
0–23, minute 0–59, second 0–60 (`%S` accepts 60 as `chrono`'s leap-second
notation). -/
def tokValid (t : List Char) : Bool :=
  1 ≤ tokM t && tokM t ≤ 12 && 1 ≤ tokD t && tokD t ≤ daysInMonth (tokY t) (tokM t) &&
    tokH t ≤ 23 && tokMin t ≤ 59 && tokS t ≤ 60

/-- Models parsing the matched token with `chrono` and taking
`.timestamp()`: a leap-second 60 collapses to second 59 (sub-second leap
representation is discarded by `timestamp()`); invalid fields give a parse
error. -/
def parseWorkoutDT (t : List Char) : Except String Int :=
  if tokValid t then
    .ok (epochOfDT (tokY t) (tokM t) (tokD t) (tokH t) (tokMin t) (min (tokS t) 59))
  else .error "input is out of range"

/-- Embeds `get_workout_timestamp` from `src/lib.rs`, specialised to the
`REGEX_CHARS` pattern that its only caller (`load_gpx`) passes
(`Regex::new` on that constant pattern succeeds): find the leftmost
shape match in the path, else `Err("No match found")`, then parse it with
the `WORKOUT_DATETIME_FMT` format. -/
def get_workout_timestamp (path : String) : Except String Int :=
  match findTok path.data with
  | none => .error "No match found"
  | some t => parseWorkoutDT t

/-- Follows the words of claim C8: the path contains, at some position, a
17-character shape match whose fields form a valid calendar date-time. -/
def specHasValidToken (path : String) : Bool :=
  (List.range path.data.length).any fun i =>
    shapeOK (path.data.drop i) && tokValid ((path.data.drop i).take 17)

/-- Counterexample to claim C8 as stated: this path contains a valid
token (`2024-01-02-030405`), yet the function returns an error, because
the leftmost shape match (`2024-13-01-000000`, month 13) is the one
handed to the date parser. -/
theorem get_workout_timestamp_valid_token_error :
    specHasValidToken "2024-13-01-000000x2024-01-02-030405" = true ∧
      get_workout_timestamp "2024-13-01-000000x2024-01-02-030405" =
        .error "input is out of range" := by
  constructor <;> rfl

/-- Claim C8 amended: the classification is driven by the leftmost
17-character shape match.  If no position matches the shape, the function
errors with "No match found"; otherwise the leftmost match decides the
outcome — a valid calendar date-time yields its epoch seconds interpreted
as UTC with no offset (computed against the specification-level per-year
day recursion; `chrono`'s leap-second 60 collapses to second 59), an
invalid one yields a parse error even when a valid token occurs further
right. -/
theorem get_workout_timestamp_leftmost (path : String) :
    (findTok path.data = none →
      get_workout_timestamp path = .error "No match found") ∧
    (∀ t, findTok path.data = some t →
      (tokValid t = true →
        get_workout_timestamp path =
          .ok (specEpochUTC (tokY t) (tokM t) (tokD t) (tokH t) (tokMin t)
            (min (tokS t) 59))) ∧
      (tokValid t = false →
        get_workout_timestamp path = .error "input is out of range")) := by
  constructor
  · intro h
    rw [get_workout_timestamp, h]
  · intro t ht
    constructor
    · intro hv
      rw [get_workout_timestamp, ht]
      simp [parseWorkoutDT, hv, epochOfDT_eq_spec]
    · intro hv
      rw [get_workout_timestamp, ht]
      simp [parseWorkoutDT, hv]

/-- Witness for C8: a path whose leftmost (and only) shape match is the
valid token `2024-01-02-030405`; the result is the epoch of
2024-01-02 03:04:05 UTC. -/
theorem get_workout_timestamp_leftmost_witness :
    get_workout_timestamp "run_2024-01-02-030405.gpx" = .ok 1704164645 := by
  have h := (((get_workout_timestamp_leftmost "run_2024-01-02-030405.gpx").2
    ("2024-01-02-030405".data) (by rfl)).1 (by rfl))
  refine h.trans (congrArg Except.ok ?_)
  refine ((epochOfDT_eq_spec 2024 1 2 3 4 (min 5 59)).symm.trans ?_).symm.symm
  decide

/-- The alternatives of `ACTIVITY_EXPR`, in `Activity::VARIANTS` order
(the regex is the variant names joined with `|`). -/
def activityKeywords : List String := ["Running", "Cycling", "Unknown"]

/-- The variant name of an activity — the keyword that classifies to it. -/
def kwOf : Activity → String
  | .Running => "Running"
  | .Cycling => "Cycling"
  | .Unknown => "Unknown"

/-- Embeds strum's derived `Activity::from_str`: exact variant names parse,
anything else is a variant-not-found error. -/
def Activity.from_str : String → Except String Activity
  | "Running" => .ok .Running
  | "Cycling" => .ok .Cycling
  | "Unknown" => .ok .Unknown
  | _ => .error "Matching variant not found"

/-- Models `ACTIVITY_EXPR.captures(path)` followed by `&captures[0]`:
the regex crate finds the leftmost match, preferring earlier alternatives
at equal start positions, so this scans positions left to right and tries
the keywords in declaration order at each position. -/
def firstKeyword : List Char → Option String
  | [] => none
  | c :: rest =>
    match activityKeywords.find? (fun k => k.data.isPrefixOf (c :: rest)) with
    | some k => some k
    | none => firstKeyword rest

/-- Embeds `get_activity` from `src/lib.rs`: the captured keyword is fed to
`Activity::from_str`; with no match the path classifies as `Unknown`. -/
def get_activity (path : String) : Except String Activity :=
  match firstKeyword path.data with
  | some name => Activity.from_str name
  | none => .ok .Unknown

/-- Number of positions of the character list at which some enumerated
activity keyword occurs. -/
def kwCount : List Char → Nat
  | [] => 0
  | c :: rest =>
    (if activityKeywords.any (fun k => k.data.isPrefixOf (c :: rest)) then 1 else 0)
      + kwCount rest

/-- Whether the keyword `k` occurs (as a contiguous substring) in the
character list. -/
def containsKw (k : String) : List Char → Bool
  | [] => false
  | c :: rest => k.data.isPrefixOf (c :: rest) || containsKw k rest

theorem keyword_unique {k₁ k₂ : String} {cs : List Char}
    (h₁ : k₁ ∈ activityKeywords) (h₂ : k₂ ∈ activityKeywords)
    (p₁ : k₁.data.isPrefixOf cs = true) (p₂ : k₂.data.isPrefixOf cs = true) :
    k₁ = k₂ := by
  rw [List.isPrefixOf_iff_prefix] at p₁ p₂
  have hlen : ∀ k ∈ activityKeywords, k.data.length = 7 := by decide
  obtain ⟨t₁, ht₁⟩ := p₁
  obtain ⟨t₂, ht₂⟩ := p₂
  have e : k₁.data = k₂.data :=
    (List.append_inj (ht₁.trans ht₂.symm)
      ((hlen k₁ h₁).trans (hlen k₂ h₂).symm)).1
  simp only [activityKeywords, List.mem_cons, List.not_mem_nil, or_false] at h₁ h₂
  rcases h₁ with rfl | rfl | rfl <;> rcases h₂ with rfl | rfl | rfl <;>
    first
    | rfl
    | (exfalso; revert e; decide)

theorem kwCount_pos_of_containsKw {k : String} (hk : k ∈ activityKeywords) :
    ∀ cs : List Char, containsKw k cs = true → 1 ≤ kwCount cs := by
  intro cs
  induction cs with
  | nil => intro h; exact absurd h (by simp [containsKw])
  | cons c rest ih =>
    intro h
    rw [containsKw, Bool.or_eq_true] at h
    rw [kwCount]
    rcases h with h | h
    · have : activityKeywords.any (fun k => k.data.isPrefixOf (c :: rest)) = true :=
        List.any_eq_true.mpr ⟨k, hk, h⟩
      rw [this]
      simp
    · have := ih h
      omega

theorem firstKeyword_eq_none_of_kwCount_zero :
    ∀ cs : List Char, kwCount cs = 0 → firstKeyword cs = none := by
  intro cs
  induction cs with
  | nil => intro _; rfl
  | cons c rest ih =>
    intro h
    rw [kwCount] at h
    rw [firstKeyword]
    cases hf : activityKeywords.find? (fun k => k.data.isPrefixOf (c :: rest)) with
    | some k =>
      exfalso
      have hp := List.find?_some hf
      have hm := List.mem_of_find?_eq_some hf
      have : activityKeywords.any (fun k => k.data.isPrefixOf (c :: rest)) = true :=
        List.any_eq_true.mpr ⟨k, hm, hp⟩
      rw [this] at h
      simp at h
    | none =>
      have hz : kwCount rest = 0 := by
        by_cases hc : activityKeywords.any (fun k => k.data.isPrefixOf (c :: rest)) = true
        · rw [hc] at h; omega
        · rw [Bool.not_eq_true] at hc; rw [hc] at h; simpa using h
      simpa using ih hz

theorem firstKeyword_of_unique {a : Activity} :
    ∀ cs : List Char, kwCount cs = 1 → containsKw (kwOf a) cs = true →
      firstKeyword cs = some (kwOf a) := by
  have hka : kwOf a ∈ activityKeywords := by
    cases a <;> simp [kwOf, activityKeywords]
  intro cs
  induction cs with
  | nil => intro _ h; exact absurd h (by simp [containsKw])
  | cons c rest ih =>
    intro hcount hocc
    rw [containsKw, Bool.or_eq_true] at hocc
    rw [kwCount] at hcount
    rw [firstKeyword]
    cases hf : activityKeywords.find? (fun k => k.data.isPrefixOf (c :: rest)) with
    | some k =>
      have hp := List.find?_some hf
      have hm := List.mem_of_find?_eq_some hf
      have hone : activityKeywords.any (fun k => k.data.isPrefixOf (c :: rest)) = true :=
        List.any_eq_true.mpr ⟨k, hm, hp⟩
      rw [hone] at hcount
      simp at hcount
      rcases hocc with hocc | hocc
      · exact congrArg some (keyword_unique hm hka hp hocc)
      · exact absurd (kwCount_pos_of_containsKw hka rest hocc) (by omega)
    | none =>
      have hno : ∀ k ∈ activityKeywords,
          ¬ k.data.isPrefixOf (c :: rest) = true := by
        intro k hk
        exact List.find?_eq_none.mp hf k hk
      have hzero : activityKeywords.any (fun k => k.data.isPrefixOf (c :: rest)) = false := by
        rw [Bool.eq_false_iff, Ne, List.any_eq_true]
        rintro ⟨k, hk, hp⟩
        exact hno k hk hp
      rw [hzero] at hcount
      simp at hcount
      rcases hocc with hocc | hocc
      · exact absurd hocc (hno _ hka)
      · exact ih (by omega) hocc

/-- Claim C9: a path containing exactly one occurrence of one enumerated
activity keyword classifies as that keyword's activity, and a path
containing no keyword occurrence classifies as `Unknown`. -/
theorem get_activity_classification (path : String) :
    (∀ a : Activity, kwCount path.data = 1 →
      containsKw (kwOf a) path.data = true → get_activity path = .ok a)
    ∧ (kwCount path.data = 0 → get_activity path = .ok .Unknown) := by
  constructor
  · intro a hcount hocc
    rw [get_activity, firstKeyword_of_unique path.data hcount hocc]
    cases a <;> rfl
  · intro h
    rw [get_activity, firstKeyword_eq_none_of_kwCount_zero path.data h]

/-- Witness for C9: a path with exactly one keyword occurrence classifies
to that activity, and a keyword-free path classifies as Unknown. -/
theorem get_activity_classification_witness :
    get_activity "a_Running_2024.gpx" = .ok .Running ∧
      get_activity "a_walk_2024.gpx" = .ok .Unknown :=
  ⟨(get_activity_classification "a_Running_2024.gpx").1 .Running
      (by decide) (by decide),
    (get_activity_classification "a_walk_2024.gpx").2 (by decide)⟩

/-- The exact rational `ipart.fpart`, built as a single normalised
fraction over the appropriate power of ten. -/
def decimalVal (ipart fpart : List Char) : ℚ :=
  mkRat (tokNat ipart * 10 ^ fpart.length + tokNat fpart) (10 ^ fpart.length)

/-- Models `str::parse::<f64>` (and `::<f32>`) on the plain decimal subset
`[+-]? (digits ['.' digits*] | '.' digits)`, read as an exact rational.
Exponent, `inf` and `NaN` forms of the Rust grammar are not modelled; no
verified statement exercises them, nor does binary rounding play a role. -/
def parseF64 (s : String) : Except String ℚ :=
  let signed : Bool × List Char :=
    match s.data with
    | '+' :: rest => (false, rest)
    | '-' :: rest => (true, rest)
    | cs => (false, cs)
  let neg := signed.1
  let cs := signed.2
  let ds := cs.takeWhile Char.isDigit
  let rest := cs.dropWhile Char.isDigit
  let signedVal : ℚ → ℚ := fun v => if neg then -v else v
  match ds, rest with
  | [], '.' :: rest2 =>
    let fs := rest2.takeWhile Char.isDigit
    let rest3 := rest2.dropWhile Char.isDigit
    if fs ≠ [] ∧ rest3 = [] then .ok (signedVal (decimalVal [] fs))
    else .error "invalid float literal"
  | [], _ => .error "invalid float literal"
  | _ :: _, [] => .ok (signedVal (tokNat ds : ℚ))
  | _ :: _, '.' :: rest2 =>
    let fs := rest2.takeWhile Char.isDigit
    let rest3 := rest2.dropWhile Char.isDigit
    if rest3 = [] then .ok (signedVal (decimalVal ds fs))
    else .error "invalid float literal"
  | _ :: _, _ :: _ => .error "invalid float literal"

/-- Models `str::parse::<i32>`: an optional sign, then one or more digits,
with the `i32` range check. -/
def parseI32 (s : String) : Except String Int :=
  let signed : Int × List Char :=
    match s.data with
    | '+' :: rest => (1, rest)
    | '-' :: rest => (-1, rest)
    | cs => (1, cs)
  let sign := signed.1
  let cs := signed.2
  if cs ≠ [] ∧ cs.all Char.isDigit then
    let v : Int := sign * (tokNat cs : Int)
    if -2147483648 ≤ v ∧ v ≤ 2147483647 then .ok v
    else .error "number too large to fit in target type"
  else .error "invalid digit found in string"

/-- Checks the `RECORD_TIMESTAMP` regex shape at a prefix of the list:
`dddd-dd-ddTdd:dd:dd` then any single character (the pattern's unescaped
dot), three digits and a literal `Z` — 24 characters in all. -/
def recShapeOK (cs : List Char) : Bool :=
  match cs with
  | c0 :: c1 :: c2 :: c3 :: c4 :: c5 :: c6 :: c7 :: c8 :: c9 :: c10 :: c11 ::
      c12 :: c13 :: c14 :: c15 :: c16 :: c17 :: c18 :: _ :: c20 :: c21 ::
      c22 :: c23 :: _ =>
    c0.isDigit && c1.isDigit && c2.isDigit && c3.isDigit && c4 == '-' &&
    c5.isDigit && c6.isDigit && c7 == '-' && c8.isDigit && c9.isDigit &&
    c10 == 'T' && c11.isDigit && c12.isDigit && c13 == ':' && c14.isDigit &&
    c15.isDigit && c16 == ':' && c17.isDigit && c18.isDigit &&
    c20.isDigit && c21.isDigit && c22.isDigit && c23 == 'Z'
  | _ => false

/-- Models `Regex::replace_all` for the `RECORD_TIMESTAMP` pattern with the
template `$y-$m-$d $H:$M:$S`: non-overlapping leftmost matches are
replaced, everything else is copied through.  `fuel` bounds the scan and is
instantiated with the list length. -/
def replaceTsGo (fuel : Nat) (cs : List Char) : List Char :=
  match fuel, cs with
  | 0, cs => cs
  | _, [] => []
  | fuel + 1, c :: rest =>
    if recShapeOK (c :: rest) then
      (c :: rest).take 10 ++ ' ' :: ((c :: rest).drop 11).take 8
        ++ replaceTsGo fuel ((c :: rest).drop 24)
    else c :: replaceTsGo fuel rest

/-- Checks that a list is exactly the `RECORD_DATETIME_FMT` shape
`dddd-dd-dd dd:dd:dd` (19 characters, nothing after). -/
def recParseShape (cs : List Char) : Bool :=
  match cs with
  | [c0, c1, c2, c3, c4, c5, c6, c7, c8, c9, c10, c11, c12, c13, c14, c15,
      c16, c17, c18] =>
    c0.isDigit && c1.isDigit && c2.isDigit && c3.isDigit && c4 == '-' &&
    c5.isDigit && c6.isDigit && c7 == '-' && c8.isDigit && c9.isDigit &&
    c10 == ' ' && c11.isDigit && c12.isDigit && c13 == ':' && c14.isDigit &&
    c15.isDigit && c16 == ':' && c17.isDigit && c18.isDigit
  | _ => false

/-- Embeds `get_record_timestamp` from `src/lib.rs`, specialised to the
`RECORD_TIMESTAMP` pattern its only caller passes: rewrite every ISO-style
`...T...Z` match into `%Y-%m-%d %H:%M:%S` form, then parse that format with
`chrono` (full input must be consumed; fields are validated as in
`parseWorkoutDT`, with the leap-second 60 collapsing to 59;
`chrono`'s acceptance of years wider than four digits is not modelled — no
verified statement exercises it). -/
def get_record_timestamp (time : String) : Except String Int :=
  let d := replaceTsGo time.data.length time.data
  if recParseShape d then
    let y := tokNat (d.take 4)
    let mo := tokNat ((d.drop 5).take 2)
    let da := tokNat ((d.drop 8).take 2)
    let h := tokNat ((d.drop 11).take 2)
    let mi := tokNat ((d.drop 14).take 2)
    let s := tokNat ((d.drop 17).take 2)
    if 1 ≤ mo ∧ mo ≤ 12 ∧ 1 ≤ da ∧ da ≤ daysInMonth y mo ∧ h ≤ 23 ∧
        mi ≤ 59 ∧ s ≤ 60 then
      .ok (epochOfDT y mo da h mi (min s 59))
    else .error "input is out of range"
  else .error "input contains invalid characters"

/-- Events yielded by the `xml::EventReader` iterator, as consumed by
`load_gpx`: element starts carry attribute name/value text; `misc` stands
for every event kind the source's wildcard arm ignores (document
boundaries, element ends are separate since the source never handles
them but the spec counts them); `parseError` is an `Err` item from the
reader, which the source meets with `panic!` — modelled as an aborting
error. -/
inductive XmlEvent where
  | startElement (name : String) (attributes : List (String × String))
  | endElement (name : String)
  | characters (text : String)
  | misc
  | parseError (msg : String)
deriving DecidableEq, Repr

/-- Models the single-binding `HashMap::from([(current_element, text)])`
plus `HashMap::get` used by the characters arm of `load_gpx`. -/
def mapGet (m : List (String × String)) (k : String) : Option String :=
  (m.find? (fun p => p.1 == k)).map (·.2)

/-- Embeds `Record::load_data`: each recognised key parses its text into
the matching optional field, any parse failure propagating (`?`). -/
def Record.load_data (r : Record) (data : List (String × String)) :
    Except String Record := do
  let r ← match mapGet data "ele" with
    | some v => do let x ← parseF64 v; pure { r with elevation := some x }
    | none => pure r
  let r ← match mapGet data "time" with
    | some v => do let t ← get_record_timestamp v; pure { r with timestamp := some t }
    | none => pure r
  let r ← match mapGet data "hr" with
    | some v => do let x ← parseI32 v; pure { r with heartrate := some x }
    | none => pure r
  let r ← match mapGet data "atemp" with
    | some v => do let x ← parseI32 v; pure { r with temperature := some x }
    | none => pure r
  let r ← match mapGet data "speed" with
    | some v => do let x ← parseF64 v; pure { r with speed := some x }
    | none => pure r
  let r ← match mapGet data "course" with
    | some v => do let x ← parseF64 v; pure { r with course := some x }
    | none => pure r
  let r ← match mapGet data "hAcc" with
    | some v => do let x ← parseF64 v; pure { r with hAcc := some x }
    | none => pure r
  let r ← match mapGet data "vAcc" with
    | some v => do let x ← parseF64 v; pure { r with vAcc := some x }
    | none => pure r
  pure r

/-- Mutable loop state of `load_gpx`'s event walk: the records pushed so
far, the ambient `current_element` slot, and the in-progress `record`
accumulator. -/
structure ParserState where
  records : List Record
  current_element : String
  record : Record
deriving Repr

/-- Reads one `trkpt` attribute into the GeoPoint accumulator, as the
attribute loop of `load_gpx` does (`lat`/`lon` parse with `?`, other
attributes are ignored). -/
def readLatLon (g : GeoPoint) (attr : String × String) : Except String GeoPoint :=
  match attr.1 with
  | "lat" =>
    match parseF64 attr.2 with
    | .ok v => .ok { g with lat := v }
    | .error e => .error e
  | "lon" =>
    match parseF64 attr.2 with
    | .ok v => .ok { g with lng := v }
    | .error e => .error e
  | _ => .ok g

/-- The unconditional tail of every iteration of `load_gpx`'s event loop:
stamp the accumulator record with the (possibly freshly reset) GeoPoint,
the file's Activity and the reference epoch, and push a copy onto the
record list. -/
def finishEvent (activity : Activity) (timestamp : Int) (st : ParserState)
    (geopoint : GeoPoint) : ParserState :=
  let r := { st.record with
    geopoint := some geopoint, activity := some activity, ds := some timestamp }
  { st with record := r, records := st.records ++ [r] }

/-- One iteration of the `for event in parser` loop of `load_gpx`: the
GeoPoint accumulator is freshly defaulted at the top of every iteration,
only a `trkpt` element start fills it from attributes, and the stamp-push
tail runs for every event kind. -/
def processEvent (activity : Activity) (timestamp : Int) (st : ParserState)
    (event : XmlEvent) : Except String ParserState :=
  match event with
  | .startElement name attributes =>
    match (if name = "trkpt"
        then attributes.foldlM readLatLon (default : GeoPoint)
        else .ok default) with
    | .ok g =>
      .ok (finishEvent activity timestamp { st with current_element := name } g)
    | .error e => .error e
  | .characters text =>
    match st.record.load_data [(st.current_element, text)] with
    | .ok r => .ok (finishEvent activity timestamp { st with record := r } default)
    | .error e => .error e
  | .parseError msg => .error ("Error processing event: " ++ msg)
  | .endElement _ => .ok (finishEvent activity timestamp st default)
  | .misc => .ok (finishEvent activity timestamp st default)

/-- Embeds `load_gpx` from `src/lib.rs`.  File access is abstracted:
`events` is the event sequence the `EventReader` yields for the file's
content; the reader is only consulted on the non-Unknown path, after both
classification steps have succeeded (`?` on `get_activity` and on
`get_workout_timestamp`, in that order). -/
def load_gpx (path : String) (events : List XmlEvent) :
    Except String (Option Workout) := do
  let activity ← get_activity path
  let timestamp ← get_workout_timestamp path
  match activity with
  | .Unknown => pure none
  | _ => do
    let init : ParserState := { records := [], current_element := "", record := {} }
    let st ← events.foldlM (processEvent activity timestamp) init
    pure (some { activity := activity, timestamp := timestamp, records := st.records })

/-- Number of closing `trkpt` events — the spec's sample boundaries. -/
def trkptCloseCount (events : List XmlEvent) : Nat :=
  events.foldl (fun n e =>
    match e with
    | .endElement name => if name = "trkpt" then n + 1 else n
    | _ => n) 0

/-- Record count of a successfully loaded workout, 0 otherwise. -/
def loadedRecordCount (path : String) (events : List XmlEvent) : Nat :=
  match load_gpx path events with
  | .ok (some w) => w.records.length
  | _ => 0

/-- GeoPoints of a successfully loaded workout's records, in order. -/
def loadedGeoPoints (path : String) (events : List XmlEvent) :
    List (Option GeoPoint) :=
  match load_gpx path events with
  | .ok (some w) => w.records.map (·.geopoint)
  | _ => []

/-- Event stream of a document with exactly one trackpoint: document
start, the `trkpt` element with its coordinates, its close, document
end. -/
def oneTrkptEvents : List XmlEvent :=
  [.misc, .startElement "trkpt" [("lat", "1.0"), ("lon", "2.0")],
    .endElement "trkpt", .misc]

/-- Claim C1 fails on the code: the push of the accumulator record sits in
the event loop's body, outside the event `match`, so a document whose
single `trkpt` closes once yields four records — one per XML event, not
one per closed trackpoint. -/
theorem load_gpx_record_per_event :
    trkptCloseCount oneTrkptEvents = 1 ∧
      loadedRecordCount "Running-2024-01-02-030405.gpx" oneTrkptEvents = 4 :=
  ⟨rfl, rfl⟩

/-- Event stream of a single trackpoint at (1.5, 2.5). -/
def oneTrkptPoint : List XmlEvent :=
  [.startElement "trkpt" [("lat", "1.5"), ("lon", "2.5")], .endElement "trkpt"]

/-- Claim C3 fails on the code: the GeoPoint accumulator is reset to the
default `(0,0)` at the top of every loop iteration and reattached to the
record on every event, so when the trackpoint closes the record pushed for
that boundary carries `(0,0)` — the parsed `(1.5, 2.5)` survives only on
the record pushed at the element-start event. -/
theorem load_gpx_geopoint_clobbered :
    loadedGeoPoints "Cycling-2024-01-02-030405.gpx" oneTrkptPoint =
      [some ⟨mkRat 3 2, mkRat 5 2⟩, some ⟨0, 0⟩] := by
  decide

/-- Counterexample to claim C7 as stated: a path with no activity keyword
classifies as Unknown, yet `load_gpx` returns an error rather than a
skip, because the reference-timestamp extraction (`?`) runs before the
Unknown check and the path has no date token. -/
theorem load_gpx_unknown_error :
    get_activity "foo.gpx" = .ok .Unknown ∧
      load_gpx "foo.gpx" [] = .error "No match found" :=
  ⟨rfl, rfl⟩

/-- Claim C7 amended: for a path that classifies as Unknown **and** whose
reference-timestamp extraction succeeds, `load_gpx` returns successfully
with no Workout produced; with no valid date token in the path it instead
propagates the timestamp error. -/
theorem load_gpx_unknown_skips (path : String) (events : List XmlEvent)
    (ts : Int) (h1 : get_activity path = .ok .Unknown)
    (h2 : get_workout_timestamp path = .ok ts) :
    load_gpx path events = .ok none := by
  rw [load_gpx, h1]
  simp only [bind, Except.bind]
  rw [h2]
  rfl

/-- Witness for C7: a keyword-free path that does contain a date token is
skipped, not failed. -/
theorem load_gpx_unknown_skips_witness :
    load_gpx "2024-01-02-030405.gpx" [] = .ok none :=
  load_gpx_unknown_skips "2024-01-02-030405.gpx" [] 1704164645 rfl rfl

theorem processEvent_ok (a : Activity) (ts : Int) (st st' : ParserState)
    (e : XmlEvent) (h : processEvent a ts st e = .ok st') :
    st'.records = st.records ++ [st'.record] ∧ st'.record.ds = some ts := by
  cases e with
  | startElement name attributes =>
    rw [processEvent] at h
    split at h
    · rename_i g hg
      rw [Except.ok.injEq] at h
      subst h
      exact ⟨rfl, rfl⟩
    · exact absurd h (by simp)
  | characters text =>
    rw [processEvent] at h
    split at h
    · rename_i r hr
      rw [Except.ok.injEq] at h
      subst h
      exact ⟨rfl, rfl⟩
    · exact absurd h (by simp)
  | endElement name =>
    rw [processEvent, Except.ok.injEq] at h
    subst h
    exact ⟨rfl, rfl⟩
  | misc =>
    rw [processEvent, Except.ok.injEq] at h
    subst h
    exact ⟨rfl, rfl⟩
  | parseError msg =>
    exact absurd h (by simp [processEvent])

theorem foldlM_ds_invariant (a : Activity) (ts : Int) :
    ∀ (events : List XmlEvent) (st st' : ParserState),
      List.foldlM (processEvent a ts) st events = .ok st' →
      (∀ r ∈ st.records, r.ds = some ts) → ∀ r ∈ st'.records, r.ds = some ts := by
  intro events
  induction events with
  | nil =>
    intro st st' h hinv
    rw [List.foldlM_nil] at h
    replace h : Except.ok st = Except.ok st' := h
    rw [Except.ok.injEq] at h
    exact h ▸ hinv
  | cons e rest ih =>
    intro st st' h hinv
    rw [List.foldlM_cons] at h
    cases hp : processEvent a ts st e with
    | error msg =>
      rw [hp] at h
      exact absurd h (by simp [bind, Except.bind])
    | ok st₁ =>
      rw [hp] at h
      simp only [bind, Except.bind] at h
      refine ih st₁ st' h ?_
      obtain ⟨hrec, hds⟩ := processEvent_ok a ts st st₁ e hp
      intro r hr
      rw [hrec] at hr
      rcases List.mem_append.mp hr with hr | hr
      · exact hinv r hr
      · rw [List.mem_singleton.mp hr]
        exact hds

/-- Claim C10: every Record of a Workout returned by `load_gpx` has `ds`
populated with the owning Workout's reference timestamp — the stamp-push
tail sets `ds` on every iteration before the record is pushed. -/
theorem load_gpx_ds_stamped (path : String) (events : List XmlEvent)
    (w : Workout) (h : load_gpx path events = .ok (some w)) :
    ∀ r ∈ w.records, r.ds = some w.timestamp := by
  rw [load_gpx] at h
  simp only [bind, Except.bind] at h
  cases ha : get_activity path with
  | error e => rw [ha] at h; exact absurd h (by simp)
  | ok a =>
    rw [ha] at h
    cases ht : get_workout_timestamp path with
    | error e => rw [ht] at h; exact absurd h (by simp)
    | ok ts =>
      rw [ht] at h
      have hrun : ∀ (hne : a ≠ Activity.Unknown), ∀ r ∈ w.records, r.ds = some w.timestamp := by
        intro hne
        have hmatch :
            (do
              let st ← List.foldlM (processEvent a ts)
                { records := [], current_element := "", record := {} } events
              pure (some { activity := a, timestamp := ts, records := st.records } : Option Workout))
              = Except.ok (some w) := by
          cases a with
          | Unknown => exact absurd rfl hne
          | Running => exact h
          | Cycling => exact h
        simp only [bind, Except.bind] at hmatch
        cases hst : List.foldlM (processEvent a ts)
            { records := [], current_element := "", record := {} } events with
        | error e => rw [hst] at hmatch; exact absurd hmatch (by simp)
        | ok st =>
          rw [hst] at hmatch
          simp only [pure, Except.pure, Except.ok.injEq, Option.some.injEq] at hmatch
          have hw : w = { activity := a, timestamp := ts, records := st.records } :=
            hmatch.symm
          subst hw
          exact foldlM_ds_invariant a ts events _ st hst (by simp)
      cases a with
      | Unknown =>
        exfalso
        simp only [pure, Except.pure, Except.ok.injEq] at h
        exact Option.noConfusion h
      | Running => exact hrun (by simp)
      | Cycling => exact hrun (by simp)

/-- The single record a one-event stream produces under a Running path. -/
def stampedRecord : Record :=
  { activity := some .Running, ds := some 1704164645, geopoint := some ⟨0, 0⟩ }

/-- The workout that one-event stream loads to. -/
def stampedWorkout : Workout :=
  { activity := .Running, timestamp := 1704164645, records := [stampedRecord] }

/-- Witness for C10: a one-event stream under a Running path produces a
workout whose single record is stamped with the file epoch. -/
theorem load_gpx_ds_stamped_witness : stampedRecord.ds = some 1704164645 :=
  load_gpx_ds_stamped "Running-2024-01-02-030405.gpx" [.misc] stampedWorkout
    rfl stampedRecord (by simp [stampedWorkout])

/-- A value bound into a SQL statement parameter. -/
inductive SqlValue where
  | int (i : Int)
  | real (q : ℚ)
  | text (s : String)
  | null
deriving DecidableEq, Repr

/-- Key comparison as SQLite's UNIQUE constraints perform it: `NULL`
compares distinct from everything, including `NULL`. -/
def sqlKeyEq (a b : SqlValue) : Bool :=
  match a, b with
  | .null, _ => false
  | _, .null => false
  | a, b => a == b

/-- The store created by `CREATE_TABLES` in `src/sql.rs`: the `workouts`
header table, the `workouts_records` table with
`UNIQUE (wid, ds, ts)` on its first three columns, and the `workouts_geo`
geopoly virtual table, which carries no uniqueness constraint.  Rows are
kept as raw bound-value tuples. -/
structure Store where
  workouts : List (List SqlValue)
  workout_records : List (List SqlValue)
  workout_geo : List (List SqlValue)
deriving DecidableEq, Repr

/-- The store right after table creation. -/
def emptyStore : Store := ⟨[], [], []⟩

/-- Models executing the prepared `RECORD_SQL` statement (8 placeholders,
`INSERT OR IGNORE`, unique on the first three bound columns): rusqlite
rejects a parameter-count mismatch with `InvalidParameterCount`; a
conflicting row is ignored, otherwise the row is appended. -/
def execRecordStmt (st : Store) (params : List SqlValue) : Except String Store :=
  if params.length = 8 then
    if st.workout_records.any
        (fun row => ((row.take 3).zip (params.take 3)).all fun p => sqlKeyEq p.1 p.2)
    then .ok st
    else .ok { st with workout_records := st.workout_records ++ [params] }
  else .error "InvalidParameterCount"

/-- Models executing the prepared `WORKOUT_SQL` statement (4 placeholders,
`INSERT OR IGNORE`, `wid` primary key in the first bound column). -/
def execWorkoutStmt (st : Store) (params : List SqlValue) : Except String Store :=
  if params.length = 4 then
    if st.workouts.any
        (fun row =>
          match row.head?, params.head? with
          | some a, some b => sqlKeyEq a b
          | _, _ => false)
    then .ok st
    else .ok { st with workouts := st.workouts ++ [params] }
  else .error "InvalidParameterCount"

/-- Models executing the prepared `GEO_SQL` statement (3 placeholders,
plain `INSERT` with no conflict clause into the geopoly virtual table):
every successful execution appends a row. -/
def execGeoStmt (st : Store) (params : List SqlValue) : Except String Store :=
  if params.length = 3 then
    .ok { st with workout_geo := st.workout_geo ++ [params] }
  else .error "InvalidParameterCount"

/-- Embeds the `Ok(w)` arm of `insert_records` in `src/sql.rs` for one
received Workout, inside its transaction.  The outer `row_values` vector is
declared empty before the per-record loop; the loop builds a like-named
vector that SHADOWS it and is dropped each iteration (only `validate`'s
`?` can escape the loop).  The record statement is then executed once with
the outer — still empty — vector against its eight placeholders; the
workout-header statement is prepared but never executed; the polygon
insert runs with three parameters.  Any statement error propagates
(`?`). -/
def ingestWorkout (st : Store) (w : Workout) : Except String Store := do
  let activity := w.activity.toStr
  let geopolyRes := w.geopoly
  let row_values : List SqlValue := []
  let _ ← w.records.foldlM (fun (u : Unit) r => do
      let _ ← r.validate
      pure u) ()
  let st ← execRecordStmt st row_values
  match geopolyRes with
  | .ok coords => execGeoStmt st [.text activity, .int w.timestamp, .text coords]
  | .error _ => .error "Unable to insert geospatial coordinates"

/-- Embeds the receive loop of `insert_records` over a drained channel:
each iteration opens a transaction, processes one received Workout and
commits; a statement error returns early through `?`, dropping — rolling
back — the open transaction, so the store keeps its pre-transaction
contents and the remaining workouts are never processed. -/
def insert_records (st : Store) (ws : List Workout) : Store × Except String Unit :=
  match ws with
  | [] => (st, .ok ())
  | w :: rest =>
    match ingestWorkout st w with
    | .ok st' => insert_records st' rest
    | .error e => (st, .error e)

/-- A perfectly valid record for the double-ingestion check. -/
def ingestedRecord : Record :=
  { geopoint := some ⟨3, 4⟩, elevation := some 12,
    ds := some 1704164645, timestamp := some 1704164650 }

/-- Workout used for the double-ingestion check. -/
def c2Workout : Workout :=
  { activity := .Running, timestamp := 1704164645, records := [ingestedRecord] }

/-- Claim C2 fails on the code: ingesting the same Workout twice leaves the
store empty behind an aborted transaction, not with one header row, one
polygon row and one record row per key.  The record statement is executed
with the empty outer parameter vector against its eight placeholders
(rusqlite's `InvalidParameterCount`), so the first transaction already
aborts; independently, the header insert is never executed and the polygon
insert carries no ignore-on-conflict clause. -/
theorem insert_records_not_idempotent :
    insert_records emptyStore [c2Workout, c2Workout] =
      (emptyStore, .error "InvalidParameterCount") ∧
    emptyStore.workouts.length = 0 :=
  ⟨rfl, rfl⟩

end WorkoutGpx
